import Mathlib

/-!
# The Verilator simulation harness `sim_sv.cpp`

A shallow embedding of `main` of `src/dau_build/sv/sim_sv.cpp`.  After the
set-up of the context, `main` constructs the device model (`Vcam_top top;`),
sets `top.clk = 0;` and runs

    while (!contextp.gotFinish()) {
        contextp.timeInc(1);
        top.clk = !top.clk;
        top.eval();
    }
    top.final();
    contextp.coveragep()->write("logs/coverage.dat");   // only if VM_COVERAGE
    return 0;

The device model `Vcam_top` and the simulation context `VerilatedContext`
are declared in headers that are not part of the sources, so the device is a
parameter (`DeviceModel`) and the context is the pair of a time counter and a
finish flag.  Every call the harness makes on its collaborators is recorded in
an event trace, so that ordering properties can be stated.
-/

namespace SimSv

/-- Calls made by `main` on the context, the device model and the coverage
database.  `eval` carries what the device model can observe when it is called:
the simulated time and the value of its clock input. -/
inductive Event where
  | timeInc (add : Nat)
  | clkWrite (v : Bool)
  | eval (time : Nat) (clk : Bool)
  | final
  | coverageWrite (path : String)
  deriving DecidableEq, Repr

/-- The device model `Vcam_top`, whose class is generated and not part of the
sources.  It is taken as a parameter: an internal state of type `σ`, the state
after construction, `eval` and `final`.  `eval` reads the simulated time and
the clock input (an input port: the harness writes it, the model reads it) and
returns the new internal state together with whether the design executed
`$finish` during this call. -/
structure DeviceModel (σ : Type) where
  init : σ
  eval : Nat → Bool → σ → σ × Bool
  final : σ → σ

/-- Modelled from the spec: `VerilatedContext::timeInc`, declared in
`verilated.h`, which is not part of the sources.  The spec describes the
simulated time as an unsigned integer counter that `advanceTime` increments by
exactly one unit with no failure mode, so the counter is a natural number and
no width is imposed on it. -/
def timeInc (add time : Nat) : Nat := time + add

/-- Everything `main` owns while it runs: the context `contextp` (time counter
and finish flag), the device `top` (clock input and internal state), and the
trace of calls made so far. -/
structure Sim (σ : Type) where
  time : Nat
  gotFinish : Bool
  clk : Bool
  top : σ
  trace : List Event

/-- State at the first loop check: a fresh context (time 0, not finished),
`Vcam_top top;` and `top.clk = 0;`. -/
def initSim {σ : Type} (dev : DeviceModel σ) : Sim σ :=
  { time := 0, gotFinish := false, clk := false, top := dev.init, trace := [] }

/-- One iteration of the loop body:
`contextp.timeInc(1); top.clk = !top.clk; top.eval();`. -/
def tick {σ : Type} (dev : DeviceModel σ) (s : Sim σ) : Sim σ :=
  let t := timeInc 1 s.time
  let c := !s.clk
  let r := dev.eval t c s.top
  { time := t
    gotFinish := s.gotFinish || r.2
    clk := c
    top := r.1
    trace := s.trace ++ [Event.timeInc 1, Event.clkWrite c, Event.eval t c] }

/-- The loop `while (!contextp.gotFinish()) { ... }`.  The condition is tested
before any fuel is used; `none` means the fuel ran out with the loop still
running. -/
def loop {σ : Type} (dev : DeviceModel σ) : Nat → Sim σ → Option (Sim σ)
  | fuel, s =>
    if s.gotFinish then some s
    else match fuel with
      | 0 => none
      | fuel + 1 => loop dev fuel (tick dev s)

/-- The fixed path of the coverage file. -/
def coveragePath : String := "logs/coverage.dat"

/-- The code after the loop: `top.final();` and, when the build-time flag
`VM_COVERAGE` is non-zero, `contextp.coveragep()->write("logs/coverage.dat")`. -/
def shutdown {σ : Type} (dev : DeviceModel σ) (VM_COVERAGE : Int) (s : Sim σ) : Sim σ :=
  let s1 : Sim σ := { s with top := dev.final s.top, trace := s.trace ++ [Event.final] }
  if VM_COVERAGE ≠ 0 then
    { s1 with trace := s1.trace ++ [Event.coverageWrite coveragePath] }
  else s1

/-- The loop followed by the shutdown code, from an arbitrary state at the
first loop check. -/
def runFrom {σ : Type} (dev : DeviceModel σ) (VM_COVERAGE : Int) (fuel : Nat)
    (s : Sim σ) : Option (Sim σ) :=
  (loop dev fuel s).map (shutdown dev VM_COVERAGE)

/-- The function `main` from the first loop check on. -/
def main {σ : Type} (dev : DeviceModel σ) (VM_COVERAGE : Int) (fuel : Nat) : Option (Sim σ) :=
  runFrom dev VM_COVERAGE fuel (initSim dev)

/-- The finish flag as the loop check sees it after `k` iterations of the
body from `s`. -/
def finishedAfter {σ : Type} (dev : DeviceModel σ) (s : Sim σ) (k : Nat) : Bool :=
  ((tick dev)^[k] s).gotFinish

/-- A tick event is one of the three calls of the loop body. -/
def Event.isTickEvent : Event → Bool
  | .timeInc _ => true
  | .clkWrite _ => true
  | .eval _ _ => true
  | _ => false

def Event.isTimeInc : Event → Bool
  | .timeInc _ => true
  | _ => false

def Event.isClkWrite : Event → Bool
  | .clkWrite _ => true
  | _ => false

def Event.isEval : Event → Bool
  | .eval _ _ => true
  | _ => false

def Event.isFinal : Event → Bool
  | .final => true
  | _ => false

def Event.isCoverageWrite : Event → Bool
  | .coverageWrite _ => true
  | _ => false

/-- The clock values written into the device model, in order. -/
def clkWrites : List Event → List Bool
  | [] => []
  | Event.clkWrite v :: es => v :: clkWrites es
  | _ :: es => clkWrites es

/-- The clock values observed by the successive `eval` calls, in order. -/
def evalClks : List Event → List Bool
  | [] => []
  | Event.eval _ c :: es => c :: evalClks es
  | _ :: es => evalClks es

/-- The three calls of tick number `i + 1` of a run that starts from
`initSim`: the clock written is high exactly when the tick number is odd. -/
def tickEvents (i : Nat) : List Event :=
  [Event.timeInc 1, Event.clkWrite (i % 2 == 0), Event.eval (i + 1) (i % 2 == 0)]

/-- The three calls of the `(i + 1)`-th iteration of the loop body counted
from a state with time `t0` and clock input `c0`. -/
def tickEventsFrom (t0 : Nat) (c0 : Bool) (i : Nat) : List Event :=
  [Event.timeInc 1, Event.clkWrite (c0 != (i % 2 == 0)),
   Event.eval (t0 + i + 1) (c0 != (i % 2 == 0))]

/-- A device model that raises its finished indicator during its `N`-th
`eval` call (and keeps it raised): its state counts the calls. -/
def finishAfter (N : Nat) : DeviceModel Nat :=
  { init := 0
    eval := fun _ _ n => (n + 1, decide (N ≤ n + 1))
    final := fun n => n }

/-- A device model that never raises its finished indicator. -/
def neverFinish : DeviceModel Unit :=
  { init := ()
    eval := fun _ _ _ => ((), false)
    final := fun _ => () }

/-! ## Iterating the loop body -/

theorem iter_succ {σ : Type} (dev : DeviceModel σ) (n : Nat) (s : Sim σ) :
    (tick dev)^[n + 1] s = tick dev ((tick dev)^[n] s) :=
  Function.iterate_succ_apply' (tick dev) n s

theorem iter_time {σ : Type} (dev : DeviceModel σ) (n : Nat) (s : Sim σ) :
    ((tick dev)^[n] s).time = s.time + n := by
  induction n with
  | zero => rfl
  | succ n ih => rw [iter_succ]; simp only [tick, timeInc, ih]; omega

theorem iter_clk {σ : Type} (dev : DeviceModel σ) (n : Nat) (s : Sim σ) :
    ((tick dev)^[n] s).clk = (s.clk != (n % 2 == 1)) := by
  induction n with
  | zero => simp
  | succ n ih =>
    rw [iter_succ]
    simp only [tick, ih]
    rcases Nat.mod_two_eq_zero_or_one n with h | h
    · have h2 : (n + 1) % 2 = 1 := by omega
      simp [h, h2]
    · have h2 : (n + 1) % 2 = 0 := by omega
      simp [h, h2]

theorem iter_trace {σ : Type} (dev : DeviceModel σ) (n : Nat) (s : Sim σ) :
    ((tick dev)^[n] s).trace
      = s.trace ++ (List.range n).flatMap (tickEventsFrom s.time s.clk) := by
  induction n with
  | zero => simp
  | succ n ih =>
    rw [iter_succ]
    have hc := iter_clk dev n s
    have ht := iter_time dev n s
    simp only [tick, timeInc, ih, hc, ht, List.range_succ, List.flatMap_append, List.flatMap_cons,
      List.flatMap_nil, List.append_nil, List.append_assoc, tickEventsFrom]
    rcases Nat.mod_two_eq_zero_or_one n with h | h <;> cases s.clk <;> simp [h]

theorem tickEventsFrom_init : tickEventsFrom 0 false = tickEvents := by
  funext i
  simp [tickEventsFrom, tickEvents]

theorem iter_trace_init {σ : Type} (dev : DeviceModel σ) (n : Nat) :
    ((tick dev)^[n] (initSim dev)).trace = (List.range n).flatMap tickEvents := by
  rw [iter_trace]
  simp [initSim, tickEventsFrom_init]

theorem finished_mono {σ : Type} (dev : DeviceModel σ) (s : Sim σ) (k n : Nat)
    (hkn : k ≤ n) (hk : finishedAfter dev s k = true) : finishedAfter dev s n = true := by
  induction n with
  | zero =>
    have : k = 0 := by omega
    subst this; exact hk
  | succ n ih =>
    rcases Nat.lt_or_ge k (n + 1) with h | h
    · have := ih (by omega)
      unfold finishedAfter at this ⊢
      rw [iter_succ]
      simp [tick, this]
    · have : k = n + 1 := by omega
      subst this; exact hk

/-! ## The loop -/

theorem loop_finished {σ : Type} (dev : DeviceModel σ) (fuel : Nat) (s : Sim σ)
    (h : s.gotFinish = true) : loop dev fuel s = some s := by
  unfold loop
  simp [h]

theorem loop_running {σ : Type} (dev : DeviceModel σ) (fuel : Nat) (s : Sim σ)
    (h : s.gotFinish = false) : loop dev (fuel + 1) s = loop dev fuel (tick dev s) := by
  rw [loop]
  simp [h]

theorem loop_zero_running {σ : Type} (dev : DeviceModel σ) (s : Sim σ)
    (h : s.gotFinish = false) : loop dev 0 s = none := by
  rw [loop]
  simp [h]

/-- While the flag is down at the first `n` checks, the loop performs `n`
iterations of the body and is at its check again. -/
theorem loop_iter {σ : Type} (dev : DeviceModel σ) (n fuel : Nat) (s : Sim σ)
    (h : ∀ k, k < n → finishedAfter dev s k = false) :
    loop dev (fuel + n) s = loop dev fuel ((tick dev)^[n] s) := by
  induction n generalizing s with
  | zero => rfl
  | succ n ih =>
    have h0 : s.gotFinish = false := h 0 (by omega)
    have : fuel + (n + 1) = (fuel + n) + 1 := by omega
    rw [this, loop_running dev _ s h0, ih (tick dev s)]
    · rfl
    · intro k hk
      have := h (k + 1) (by omega)
      simpa [finishedAfter] using this

/-- The loop stops at the first check that sees the flag up. -/
theorem loop_first {σ : Type} (dev : DeviceModel σ) (n fuel : Nat) (s : Sim σ)
    (h : ∀ k, k < n → finishedAfter dev s k = false)
    (hn : finishedAfter dev s n = true) (hf : n ≤ fuel) :
    loop dev fuel s = some ((tick dev)^[n] s) := by
  obtain ⟨d, rfl⟩ : ∃ d, fuel = d + n := ⟨fuel - n, by omega⟩
  rw [loop_iter dev n d s h]
  exact loop_finished dev d _ hn

/-- Every result of the loop is the state after the least number of ticks at
which the flag is up. -/
theorem loop_some {σ : Type} (dev : DeviceModel σ) (fuel : Nat) (s r : Sim σ)
    (h : loop dev fuel s = some r) :
    ∃ n, n ≤ fuel ∧ r = (tick dev)^[n] s ∧ finishedAfter dev s n = true
      ∧ ∀ k, k < n → finishedAfter dev s k = false := by
  induction fuel generalizing s with
  | zero =>
    cases hs : s.gotFinish with
    | true =>
      rw [loop_finished dev 0 s hs] at h
      injection h with h
      exact ⟨0, le_refl _, h.symm, hs, fun k hk => absurd hk (Nat.not_lt_zero k)⟩
    | false => rw [loop_zero_running dev s hs] at h; cases h
  | succ fuel ih =>
    cases hs : s.gotFinish with
    | true =>
      rw [loop_finished dev _ s hs] at h
      injection h with h
      exact ⟨0, Nat.zero_le _, h.symm, hs, fun k hk => absurd hk (Nat.not_lt_zero k)⟩
    | false =>
      rw [loop_running dev fuel s hs] at h
      obtain ⟨n, hn, hr, hfin, hlt⟩ := ih (tick dev s) h
      refine ⟨n + 1, by omega, ?_, ?_, ?_⟩
      · simpa using hr
      · simpa [finishedAfter] using hfin
      · intro k hk
        cases k with
        | zero => exact hs
        | succ k =>
          have := hlt k (by omega)
          simpa [finishedAfter] using this

/-! ## Traces -/

theorem clkWrites_append (a b : List Event) :
    clkWrites (a ++ b) = clkWrites a ++ clkWrites b := by
  induction a with
  | nil => rfl
  | cons e a ih => cases e <;> simp [clkWrites, ih]

theorem evalClks_append (a b : List Event) :
    evalClks (a ++ b) = evalClks a ++ evalClks b := by
  induction a with
  | nil => rfl
  | cons e a ih => cases e <;> simp [evalClks, ih]

theorem clkWrites_ticks (n : Nat) :
    clkWrites ((List.range n).flatMap tickEvents) = (List.range n).map (fun i => i % 2 == 0) := by
  induction n with
  | zero => rfl
  | succ n ih =>
    simp [List.range_succ, List.flatMap_append, clkWrites_append, ih, tickEvents, clkWrites]

theorem evalClks_ticks (n : Nat) :
    evalClks ((List.range n).flatMap tickEvents) = (List.range n).map (fun i => i % 2 == 0) := by
  induction n with
  | zero => rfl
  | succ n ih =>
    simp [List.range_succ, List.flatMap_append, evalClks_append, ih, tickEvents, evalClks]

theorem ticksFrom_counts (t0 : Nat) (c0 : Bool) (n : Nat) :
    List.countP Event.isTimeInc ((List.range n).flatMap (tickEventsFrom t0 c0)) = n
    ∧ List.countP Event.isClkWrite ((List.range n).flatMap (tickEventsFrom t0 c0)) = n
    ∧ List.countP Event.isEval ((List.range n).flatMap (tickEventsFrom t0 c0)) = n
    ∧ List.countP Event.isTickEvent ((List.range n).flatMap (tickEventsFrom t0 c0)) = 3 * n
    ∧ List.countP Event.isFinal ((List.range n).flatMap (tickEventsFrom t0 c0)) = 0
    ∧ List.countP Event.isCoverageWrite ((List.range n).flatMap (tickEventsFrom t0 c0)) = 0 := by
  induction n with
  | zero => simp
  | succ n ih =>
    obtain ⟨h1, h2, h3, h4, h5, h6⟩ := ih
    simp only [List.range_succ, List.flatMap_append, List.countP_append, h1, h2, h3, h4, h5, h6,
      List.flatMap_cons, List.flatMap_nil, List.append_nil]
    simp [tickEventsFrom, List.countP_cons, Event.isTimeInc, Event.isClkWrite, Event.isEval,
      Event.isTickEvent, Event.isFinal, Event.isCoverageWrite]
    omega

theorem ticksFrom_all (t0 : Nat) (c0 : Bool) (n : Nat) (e : Event)
    (he : e ∈ (List.range n).flatMap (tickEventsFrom t0 c0)) :
    e.isTickEvent = true ∧ e.isFinal = false ∧ e.isCoverageWrite = false := by
  simp only [List.mem_flatMap, List.mem_range] at he
  obtain ⟨i, _, hi⟩ := he
  simp only [tickEventsFrom, List.mem_cons, List.mem_singleton] at hi
  rcases hi with h | h | h | h
  · subst h; exact ⟨rfl, rfl, rfl⟩
  · subst h; exact ⟨rfl, rfl, rfl⟩
  · subst h; exact ⟨rfl, rfl, rfl⟩
  · cases h

/-- What the shutdown code appends to the trace. -/
theorem shutdown_trace {σ : Type} (dev : DeviceModel σ) (cov : Int) (s : Sim σ) :
    (shutdown dev cov s).trace
      = s.trace ++ Event.final :: (if cov ≠ 0 then [Event.coverageWrite coveragePath] else []) := by
  unfold shutdown
  by_cases h : cov = 0 <;> simp [h]

theorem shutdown_time {σ : Type} (dev : DeviceModel σ) (cov : Int) (s : Sim σ) :
    (shutdown dev cov s).time = s.time := by
  unfold shutdown
  by_cases h : cov = 0 <;> simp [h]

theorem shutdown_clk {σ : Type} (dev : DeviceModel σ) (cov : Int) (s : Sim σ) :
    (shutdown dev cov s).clk = s.clk := by
  unfold shutdown
  by_cases h : cov = 0 <;> simp [h]

/-- Every terminating run is some number `n` of ticks, the least at which the
loop check sees the flag up, followed by the shutdown code. -/
theorem runFrom_some {σ : Type} (dev : DeviceModel σ) (cov : Int) (fuel : Nat) (s r : Sim σ)
    (h : runFrom dev cov fuel s = some r) :
    ∃ n, n ≤ fuel ∧ r = shutdown dev cov ((tick dev)^[n] s) ∧ finishedAfter dev s n = true
      ∧ ∀ k, k < n → finishedAfter dev s k = false := by
  unfold runFrom at h
  cases hl : loop dev fuel s with
  | none => rw [hl] at h; cases h
  | some q =>
    rw [hl] at h
    obtain ⟨n, hn, hq, hfin, hlt⟩ := loop_some dev fuel s q hl
    refine ⟨n, hn, ?_, hfin, hlt⟩
    simp only [Option.map_some'] at h
    injection h with h
    rw [← h, hq]

theorem runFrom_first {σ : Type} (dev : DeviceModel σ) (cov : Int) (n fuel : Nat) (s : Sim σ)
    (h : ∀ k, k < n → finishedAfter dev s k = false)
    (hn : finishedAfter dev s n = true) (hf : n ≤ fuel) :
    runFrom dev cov fuel s = some (shutdown dev cov ((tick dev)^[n] s)) := by
  unfold runFrom
  rw [loop_first dev n fuel s h hn hf]
  rfl

theorem ticks_length (n : Nat) : ((List.range n).flatMap tickEvents).length = 3 * n := by
  induction n with
  | zero => rfl
  | succ n ih =>
    simp only [List.range_succ, List.flatMap_append, List.length_append, ih, List.flatMap_cons,
      List.flatMap_nil, List.append_nil]
    simp [tickEvents]
    omega

/-- The `j`-th call of tick `i + 1` sits at position `3 * i + j` of the trace. -/
theorem ticks_get (n i j : Nat) (hi : i < n) (hj : j < 3) :
    ((List.range n).flatMap tickEvents)[3 * i + j]? = (tickEvents i)[j]? := by
  induction n with
  | zero => omega
  | succ n ih =>
    simp only [List.range_succ, List.flatMap_append, List.flatMap_cons, List.flatMap_nil,
      List.append_nil]
    rcases Nat.lt_or_ge i n with h | h
    · rw [List.getElem?_append_left (by rw [ticks_length]; omega)]
      exact ih h
    · have hin : i = n := by omega
      subst hin
      rw [List.getElem?_append_right (by rw [ticks_length]; omega), ticks_length]
      congr 1
      omega

/-- The calls recorded by a run of `n` ticks and the shutdown code, by kind. -/
theorem run_counts {σ : Type} (dev : DeviceModel σ) (cov : Int) (n : Nat) (s : Sim σ) :
    List.countP Event.isTimeInc (shutdown dev cov ((tick dev)^[n] s)).trace
        = List.countP Event.isTimeInc s.trace + n
    ∧ List.countP Event.isClkWrite (shutdown dev cov ((tick dev)^[n] s)).trace
        = List.countP Event.isClkWrite s.trace + n
    ∧ List.countP Event.isEval (shutdown dev cov ((tick dev)^[n] s)).trace
        = List.countP Event.isEval s.trace + n
    ∧ List.countP Event.isFinal (shutdown dev cov ((tick dev)^[n] s)).trace
        = List.countP Event.isFinal s.trace + 1
    ∧ List.countP Event.isCoverageWrite (shutdown dev cov ((tick dev)^[n] s)).trace
        = List.countP Event.isCoverageWrite s.trace + (if cov ≠ 0 then 1 else 0) := by
  rw [shutdown_trace, iter_trace]
  obtain ⟨h1, h2, h3, _, h5, h6⟩ := ticksFrom_counts s.time s.clk n
  by_cases hc : cov = 0 <;>
    simp [hc, List.countP_append, List.countP_cons, h1, h2, h3, h5, h6,
      Event.isTimeInc, Event.isClkWrite, Event.isEval, Event.isFinal, Event.isCoverageWrite]

/-- The clock values observed by the `eval` calls of a run of `n` ticks from
the initial state of `main`. -/
theorem run_evalClks {σ : Type} (dev : DeviceModel σ) (cov : Int) (n : Nat) :
    evalClks (shutdown dev cov ((tick dev)^[n] (initSim dev))).trace
      = (List.range n).map (fun i => i % 2 == 0) := by
  rw [shutdown_trace, iter_trace_init, evalClks_append, evalClks_ticks]
  by_cases hc : cov = 0 <;> simp [hc, evalClks]

/-! ## The claims -/

/-- C1 (checked-before-execute termination).  If the loop check after `n`
ticks is the first one that sees the finish flag up, the run is exactly those
`n` ticks followed by the shutdown code: everything recorded after that check
is not a `timeInc`, clock write or `eval`, the number of such calls of the
whole run is `3 * n`, and time and clock keep the values they had at that
check.  For `n = 0` (flag up at the first check) the loop performs no tick:
time and clock keep their initial values and no `eval` is recorded. -/
theorem checked_before_execute {σ : Type} (dev : DeviceModel σ) (cov : Int) (fuel n : Nat)
    (s : Sim σ) (hdown : ∀ k, k < n → finishedAfter dev s k = false)
    (hup : finishedAfter dev s n = true) (hf : n ≤ fuel) :
    loop dev fuel s = some ((tick dev)^[n] s)
    ∧ ∃ r, runFrom dev cov fuel s = some r
      ∧ r.time = ((tick dev)^[n] s).time ∧ r.clk = ((tick dev)^[n] s).clk
      ∧ (∃ post, r.trace = ((tick dev)^[n] s).trace ++ post ∧ ∀ e ∈ post, e.isTickEvent = false)
      ∧ List.countP Event.isTickEvent r.trace = List.countP Event.isTickEvent s.trace + 3 * n
      ∧ (n = 0 → r.time = s.time ∧ r.clk = s.clk
          ∧ List.countP Event.isEval r.trace = List.countP Event.isEval s.trace) := by
  refine ⟨loop_first dev n fuel s hdown hup hf, shutdown dev cov ((tick dev)^[n] s),
    runFrom_first dev cov n fuel s hdown hup hf, shutdown_time dev cov _, shutdown_clk dev cov _,
    ?_, ?_, ?_⟩
  · refine ⟨_, shutdown_trace dev cov _, ?_⟩
    intro e he
    by_cases hc : cov = 0
    · simp [hc] at he; subst he; rfl
    · simp [hc] at he; rcases he with he | he <;> subst he <;> rfl
  · rw [shutdown_trace, iter_trace]
    have h4 := (ticksFrom_counts s.time s.clk n).2.2.2.1
    by_cases hc : cov = 0 <;>
      simp [hc, List.countP_append, List.countP_cons, h4, Event.isTickEvent]
  · intro hn
    subst hn
    refine ⟨shutdown_time dev cov _, shutdown_clk dev cov _, ?_⟩
    rw [shutdown_trace]
    by_cases hc : cov = 0 <;>
      simp [hc, List.countP_append, List.countP_cons, Event.isEval]

/-- C2 (Scenario A).  From the initial state of `main` (time 0, not
finished), if the finish flag is still down after each of the first `N - 1`
`eval` calls and up after the `N`-th, then `main` returns, with any fuel of at
least `N` and with no less, after exactly `N` `timeInc` calls, `N` clock
writes and `N` `eval` calls, with the simulated time equal to `N` and one
`final` call.  (`N ≥ 1` follows from the hypotheses.) -/
theorem scenarioA_exact_ticks {σ : Type} (dev : DeviceModel σ) (cov : Int) (N : Nat)
    (hdown : ∀ k, k < N → finishedAfter dev (initSim dev) k = false)
    (hup : finishedAfter dev (initSim dev) N = true) :
    1 ≤ N ∧ ∃ r, (∀ fuel, N ≤ fuel → main dev cov fuel = some r)
      ∧ (∀ fuel, fuel < N → main dev cov fuel = none)
      ∧ List.countP Event.isTimeInc r.trace = N
      ∧ List.countP Event.isClkWrite r.trace = N
      ∧ List.countP Event.isEval r.trace = N
      ∧ r.time = N
      ∧ List.countP Event.isFinal r.trace = 1 := by
  have hN : 1 ≤ N := by
    rcases Nat.eq_zero_or_pos N with h | h
    · subst h; simp [finishedAfter, initSim] at hup
    · exact h
  refine ⟨hN, shutdown dev cov ((tick dev)^[N] (initSim dev)), ?_, ?_, ?_, ?_, ?_, ?_, ?_⟩
  · intro fuel hf
    exact runFrom_first dev cov N fuel (initSim dev) hdown hup hf
  · intro fuel hf
    cases hm : main dev cov fuel with
    | none => rfl
    | some q =>
      obtain ⟨n, hn, _, hfin, _⟩ := runFrom_some dev cov fuel (initSim dev) q hm
      have := hdown n (by omega)
      rw [this] at hfin
      cases hfin
  · simpa [initSim] using (run_counts dev cov N (initSim dev)).1
  · simpa [initSim] using (run_counts dev cov N (initSim dev)).2.1
  · simpa [initSim] using (run_counts dev cov N (initSim dev)).2.2.1
  · rw [shutdown_time, iter_time]; simp [initSim]
  · simpa [initSim] using (run_counts dev cov N (initSim dev)).2.2.2.1

/-- C3 (P1, clock alternation).  After any number `n` of ticks from the
initial state of `main` (`top.clk = 0`), the clock values written so far are
high, low, high, ...: the value written on tick `i` (counted from 1) is high
exactly when `i` is odd, so the first one is high and the values written on
ticks `i` and `i + 1` differ.  The same holds for the trace of every
terminating run of `main`.  The device model reads its clock input and does
not write it (`eval` in `DeviceModel`). -/
theorem clock_alternation {σ : Type} (dev : DeviceModel σ) (n : Nat) :
    clkWrites ((tick dev)^[n] (initSim dev)).trace = (List.range n).map (fun i => i % 2 == 0)
    ∧ (∀ i, 1 ≤ i → i ≤ n →
        (clkWrites ((tick dev)^[n] (initSim dev)).trace)[i - 1]? = some (decide (i % 2 = 1)))
    ∧ (∀ i, 1 ≤ i → i + 1 ≤ n →
        (clkWrites ((tick dev)^[n] (initSim dev)).trace)[i - 1]?
          ≠ (clkWrites ((tick dev)^[n] (initSim dev)).trace)[i]?)
    ∧ (1 ≤ n → (clkWrites ((tick dev)^[n] (initSim dev)).trace)[0]? = some true)
    ∧ (∀ (cov : Int) (fuel : Nat) (r : Sim σ), main dev cov fuel = some r →
        ∃ m, clkWrites r.trace = (List.range m).map (fun i => i % 2 == 0)) := by
  have hw : clkWrites ((tick dev)^[n] (initSim dev)).trace
      = (List.range n).map (fun i => i % 2 == 0) := by
    rw [iter_trace_init, clkWrites_ticks]
  have hget : ∀ j, j < n →
      (clkWrites ((tick dev)^[n] (initSim dev)).trace)[j]? = some (j % 2 == 0) := by
    intro j hj
    rw [hw]
    simp [List.getElem?_map, List.getElem?_range hj]
  refine ⟨hw, ?_, ?_, ?_, ?_⟩
  · intro i h1 hn
    rw [hget (i - 1) (by omega)]
    rcases Nat.mod_two_eq_zero_or_one i with h | h
    · have : (i - 1) % 2 = 1 := by omega
      simp [h, this]
    · have : (i - 1) % 2 = 0 := by omega
      simp [h, this]
  · intro i h1 hn
    rw [hget (i - 1) (by omega), hget i (by omega)]
    rcases Nat.mod_two_eq_zero_or_one i with h | h
    · have : (i - 1) % 2 = 1 := by omega
      simp [h, this]
    · have : (i - 1) % 2 = 0 := by omega
      simp [h, this]
  · intro h1
    rw [hget 0 (by omega)]
    rfl
  · intro cov fuel r hr
    obtain ⟨m, _, hm, _, _⟩ := runFrom_some dev cov fuel (initSim dev) r hr
    refine ⟨m, ?_⟩
    rw [hm, shutdown_trace, iter_trace_init, clkWrites_append, clkWrites_ticks]
    by_cases hc : cov = 0 <;> simp [hc, clkWrites]

/-- C4 (P2, monotonic time).  From any state, the time after tick `n + 1` is
the time after tick `n` plus exactly 1, each tick makes exactly one `timeInc`
call, so after `n` ticks the time is the initial time plus `n` and it never
decreases; the shutdown code leaves the time unchanged, and a terminating run
that made `k` `timeInc` calls ends with the initial time plus `k`. -/
theorem monotonic_time {σ : Type} (dev : DeviceModel σ) (s : Sim σ) (n : Nat) :
    ((tick dev)^[n + 1] s).time = ((tick dev)^[n] s).time + 1
    ∧ List.countP Event.isTimeInc ((tick dev)^[n + 1] s).trace
        = List.countP Event.isTimeInc ((tick dev)^[n] s).trace + 1
    ∧ ((tick dev)^[n] s).time = s.time + n
    ∧ (∀ m, n ≤ m → ((tick dev)^[n] s).time ≤ ((tick dev)^[m] s).time)
    ∧ (∀ cov : Int, (shutdown dev cov ((tick dev)^[n] s)).time = ((tick dev)^[n] s).time)
    ∧ (∀ (cov : Int) (fuel : Nat) (r : Sim σ), runFrom dev cov fuel s = some r →
        ∃ k, r.time = s.time + k
          ∧ List.countP Event.isTimeInc r.trace = List.countP Event.isTimeInc s.trace + k) := by
  refine ⟨?_, ?_, iter_time dev n s, ?_, fun cov => shutdown_time dev cov _, ?_⟩
  · rw [iter_time, iter_time]; omega
  · rw [iter_succ]
    simp [tick, List.countP_append, List.countP_cons, Event.isTimeInc]
  · intro m hm
    rw [iter_time, iter_time]; omega
  · intro cov fuel r hr
    obtain ⟨k, _, hk, _, _⟩ := runFrom_some dev cov fuel s r hr
    refine ⟨k, ?_, ?_⟩
    · rw [hk, shutdown_time, iter_time]
    · rw [hk]; exact (run_counts dev cov k s).1

/-- C5 (P5, finalize exactly once).  Every terminating run, from any state
at the first loop check (so also when the flag is up at once and no tick is
made, or when the first `eval` raises it), records exactly one `final` call,
and no `eval` call comes after it: what the run records is a list of tick
events, then `final`, then at most the coverage write. -/
theorem finalize_once {σ : Type} (dev : DeviceModel σ) (cov : Int) (fuel : Nat) (s r : Sim σ)
    (h : runFrom dev cov fuel s = some r) :
    ∃ mid post, r.trace = s.trace ++ mid ++ Event.final :: post
      ∧ (∀ e ∈ mid, e.isFinal = false)
      ∧ (∀ e ∈ post, e.isFinal = false ∧ e.isEval = false)
      ∧ List.countP Event.isFinal (mid ++ Event.final :: post) = 1
      ∧ List.countP Event.isFinal r.trace = List.countP Event.isFinal s.trace + 1 := by
  obtain ⟨n, _, hr, _, _⟩ := runFrom_some dev cov fuel s r h
  refine ⟨(List.range n).flatMap (tickEventsFrom s.time s.clk),
    (if cov ≠ 0 then [Event.coverageWrite coveragePath] else []), ?_, ?_, ?_, ?_, ?_⟩
  · rw [hr, shutdown_trace, iter_trace]
  · intro e he
    exact (ticksFrom_all s.time s.clk n e he).2.1
  · intro e he
    by_cases hc : cov = 0
    · simp [hc] at he
    · simp [hc] at he; subst he; exact ⟨rfl, rfl⟩
  · have h5 := (ticksFrom_counts s.time s.clk n).2.2.2.2.1
    by_cases hc : cov = 0 <;>
      simp [hc, List.countP_append, List.countP_cons, h5, Event.isFinal]
  · rw [hr]; exact (run_counts dev cov n s).2.2.2.1

/-- C6 (P4, coverage conditionality).  In every terminating run of `main` the
coverage write to `logs/coverage.dat` is recorded if and only if the
build-time flag `VM_COVERAGE` is non-zero; the number of coverage writes is 1
in that case and 0 otherwise, and no other path is ever written. -/
theorem coverage_conditional {σ : Type} (dev : DeviceModel σ) (cov : Int) (fuel : Nat)
    (r : Sim σ) (h : main dev cov fuel = some r) :
    (Event.coverageWrite "logs/coverage.dat" ∈ r.trace ↔ cov ≠ 0)
    ∧ List.countP Event.isCoverageWrite r.trace = (if cov ≠ 0 then 1 else 0)
    ∧ List.countP Event.isCoverageWrite r.trace ≤ 1
    ∧ (∀ p, Event.coverageWrite p ∈ r.trace → p = "logs/coverage.dat") := by
  obtain ⟨n, _, hr, _, _⟩ := runFrom_some dev cov fuel (initSim dev) r h
  have hcnt : List.countP Event.isCoverageWrite r.trace = (if cov ≠ 0 then 1 else 0) := by
    rw [hr]
    simpa [initSim] using (run_counts dev cov n (initSim dev)).2.2.2.2
  have hmem : ∀ p, Event.coverageWrite p ∈ r.trace → p = "logs/coverage.dat" ∧ cov ≠ 0 := by
    intro p hp
    rw [hr, shutdown_trace, iter_trace] at hp
    simp only [List.mem_append, List.mem_cons] at hp
    rcases hp with (hp | hp) | hp | hp
    · simp [initSim] at hp
    · have := (ticksFrom_all _ _ n _ hp).2.2
      simp [Event.isCoverageWrite] at this
    · cases hp
    · by_cases hc : cov = 0
      · simp [hc] at hp
      · simp [hc, coveragePath] at hp
        exact ⟨hp, hc⟩
  refine ⟨⟨fun hp => (hmem _ hp).2, ?_⟩, hcnt, ?_, fun p hp => (hmem p hp).1⟩
  · intro hc
    rw [hr, shutdown_trace]
    simp [hc, coveragePath]
  · rw [hcnt]; split <;> omega

/-- C7 (shutdown order, Scenario C).  In every terminating run of `main` with
coverage compiled in (`VM_COVERAGE` non-zero) the trace is a list of
`timeInc`, clock-write and `eval` calls, then `final`, then the single write
to `logs/coverage.dat`, which is the last call recorded. -/
theorem shutdown_order {σ : Type} (dev : DeviceModel σ) (cov : Int) (fuel : Nat) (r : Sim σ)
    (hc : cov ≠ 0) (h : main dev cov fuel = some r) :
    ∃ ticks, r.trace = ticks ++ [Event.final, Event.coverageWrite "logs/coverage.dat"]
      ∧ (∀ e ∈ ticks, e.isTickEvent = true)
      ∧ r.trace.getLast? = some (Event.coverageWrite "logs/coverage.dat")
      ∧ List.countP Event.isFinal r.trace = 1
      ∧ List.countP Event.isCoverageWrite r.trace = 1 := by
  obtain ⟨n, _, hr, _, _⟩ := runFrom_some dev cov fuel (initSim dev) r h
  have htr : r.trace = (List.range n).flatMap (tickEventsFrom 0 false)
      ++ [Event.final, Event.coverageWrite "logs/coverage.dat"] := by
    rw [hr, shutdown_trace, iter_trace]
    simp [hc, initSim, coveragePath]
  refine ⟨_, htr, fun e he => (ticksFrom_all 0 false n e he).1, ?_, ?_, ?_⟩
  · rw [htr]; simp
  · rw [hr]; simpa [initSim] using (run_counts dev cov n (initSim dev)).2.2.2.1
  · rw [hr]; simpa [initSim, hc] using (run_counts dev cov n (initSim dev)).2.2.2.2

/-- C8 (per-tick ordering).  After `n` ticks from the initial state of `main`
the trace is, tick after tick, `timeInc(1)`, the clock write, `eval`: for
every tick `N` with `1 ≤ N ≤ n` these three calls sit at positions
`3 (N - 1)`, `3 (N - 1) + 1`, `3 (N - 1) + 2`, the `eval` of tick `N` observes
the clock value written during tick `N` and the time `N`, and for `N ≥ 2`
that clock value is the negation of the one observed by the `eval` of tick
`N - 1`, which comes before every call of tick `N`.  Every terminating run
of `main` records exactly such a list of ticks before `final`. -/
theorem per_tick_order {σ : Type} (dev : DeviceModel σ) (n : Nat) :
    ((tick dev)^[n] (initSim dev)).trace = (List.range n).flatMap tickEvents
    ∧ (∀ N, 1 ≤ N → N ≤ n → ∃ c : Bool,
        ((tick dev)^[n] (initSim dev)).trace[3 * (N - 1)]? = some (Event.timeInc 1)
        ∧ ((tick dev)^[n] (initSim dev)).trace[3 * (N - 1) + 1]? = some (Event.clkWrite c)
        ∧ ((tick dev)^[n] (initSim dev)).trace[3 * (N - 1) + 2]? = some (Event.eval N c)
        ∧ c = decide (N % 2 = 1)
        ∧ (2 ≤ N →
            ((tick dev)^[n] (initSim dev)).trace[3 * (N - 2) + 2]? = some (Event.eval (N - 1) (!c))))
    ∧ (∀ (cov : Int) (fuel : Nat) (r : Sim σ), main dev cov fuel = some r →
        ∃ m, m ≤ fuel ∧ r.trace = (List.range m).flatMap tickEvents
          ++ Event.final :: (if cov ≠ 0 then [Event.coverageWrite "logs/coverage.dat"] else [])) := by
  refine ⟨iter_trace_init dev n, ?_, ?_⟩
  · intro N h1 hn
    rw [iter_trace_init]
    have hpar : ((N - 1) % 2 == 0) = decide (N % 2 = 1) := by
      rcases Nat.mod_two_eq_zero_or_one N with h | h
      · have : (N - 1) % 2 = 1 := by omega
        simp [h, this]
      · have : (N - 1) % 2 = 0 := by omega
        simp [h, this]
    refine ⟨decide (N % 2 = 1), ?_, ?_, ?_, rfl, ?_⟩
    · have := ticks_get n (N - 1) 0 (by omega) (by omega)
      simpa [tickEvents] using this
    · have := ticks_get n (N - 1) 1 (by omega) (by omega)
      rw [this]
      simp [tickEvents, hpar]
    · have := ticks_get n (N - 1) 2 (by omega) (by omega)
      rw [this]
      have hN : N - 1 + 1 = N := by omega
      simp [tickEvents, hpar, hN]
    · intro h2
      have := ticks_get n (N - 2) 2 (by omega) (by omega)
      rw [this]
      have hN : N - 2 + 1 = N - 1 := by omega
      have hpar2 : ((N - 2) % 2 == 0) = !decide (N % 2 = 1) := by
        rcases Nat.mod_two_eq_zero_or_one N with h | h
        · have : (N - 2) % 2 = 0 := by omega
          simp [h, this]
        · have : (N - 2) % 2 = 1 := by omega
          simp [h, this]
      simp [tickEvents, hpar2, hN]
  · intro cov fuel r hr
    obtain ⟨m, hm, hrm, _, _⟩ := runFrom_some dev cov fuel (initSim dev) r hr
    refine ⟨m, hm, ?_⟩
    rw [hrm, shutdown_trace, iter_trace_init]
    rfl

/-- C9 (no timeout).  If `eval` never raises the finished indicator, then
from the initial state of `main` the loop never stops: `main` returns with no
amount of fuel, and for every `n` the loop is, after `n` ticks, at its check
again with the flag down and the simulated time equal to `n`, and neither
`final` nor the coverage write has been recorded. -/
theorem no_timeout {σ : Type} (dev : DeviceModel σ) (cov : Int)
    (hnever : ∀ t c x, (dev.eval t c x).2 = false) :
    (∀ fuel, main dev cov fuel = none)
    ∧ ∀ n, finishedAfter dev (initSim dev) n = false
      ∧ ((tick dev)^[n] (initSim dev)).time = n
      ∧ (∀ fuel, loop dev (fuel + n) (initSim dev) = loop dev fuel ((tick dev)^[n] (initSim dev)))
      ∧ (∀ e ∈ ((tick dev)^[n] (initSim dev)).trace,
          e.isFinal = false ∧ e.isCoverageWrite = false) := by
  have hdown : ∀ n, finishedAfter dev (initSim dev) n = false := by
    intro n
    induction n with
    | zero => rfl
    | succ n ih =>
      unfold finishedAfter at ih ⊢
      rw [iter_succ]
      simp [tick, ih, hnever]
  refine ⟨?_, fun n => ⟨hdown n, ?_, ?_, ?_⟩⟩
  · intro fuel
    cases hm : main dev cov fuel with
    | none => rfl
    | some q =>
      obtain ⟨n, _, _, hfin, _⟩ := runFrom_some dev cov fuel (initSim dev) q hm
      rw [hdown n] at hfin
      cases hfin
  · rw [iter_time]; simp [initSim]
  · intro fuel
    exact loop_iter dev n fuel (initSim dev) (fun k _ => hdown k)
  · intro e he
    rw [iter_trace] at he
    simp only [initSim, List.nil_append] at he
    exact (ticksFrom_all 0 false n e he).2

/-- C10 (Scenario A clock pattern, as amended).  When the finish flag is
first up after exactly 100 `eval` calls, `main` returns and the clock values
observed by the 100 `eval` calls strictly alternate starting with high: high
on the odd ticks 1, 3, 5, ... and low on the even ticks (low is the value of
the clock input before tick 1 only). -/
theorem scenarioA_clock_high_first {σ : Type} (dev : DeviceModel σ) (cov : Int)
    (hdown : ∀ k, k < 100 → finishedAfter dev (initSim dev) k = false)
    (hup : finishedAfter dev (initSim dev) 100 = true) :
    ∃ r, main dev cov 100 = some r
      ∧ evalClks r.trace = (List.range 100).map (fun i => i % 2 == 0)
      ∧ (∀ i, 1 ≤ i → i ≤ 100 → (evalClks r.trace)[i - 1]? = some (decide (i % 2 = 1)))
      ∧ (∀ i, 1 ≤ i → i + 1 ≤ 100 → (evalClks r.trace)[i - 1]? ≠ (evalClks r.trace)[i]?) := by
  have hev : evalClks (shutdown dev cov ((tick dev)^[100] (initSim dev))).trace
      = (List.range 100).map (fun i => i % 2 == 0) := run_evalClks dev cov 100
  have hget : ∀ j, j < 100 →
      (evalClks (shutdown dev cov ((tick dev)^[100] (initSim dev))).trace)[j]?
        = some (j % 2 == 0) := by
    intro j hj
    rw [hev]
    simp [List.getElem?_map, List.getElem?_range hj]
  refine ⟨_, runFrom_first dev cov 100 100 (initSim dev) hdown hup (le_refl _), hev, ?_, ?_⟩
  · intro i h1 hn
    rw [hget (i - 1) (by omega)]
    rcases Nat.mod_two_eq_zero_or_one i with h | h
    · have : (i - 1) % 2 = 1 := by omega
      simp [h, this]
    · have : (i - 1) % 2 = 0 := by omega
      simp [h, this]
  · intro i h1 hn
    rw [hget (i - 1) (by omega), hget i (by omega)]
    rcases Nat.mod_two_eq_zero_or_one i with h | h
    · have : (i - 1) % 2 = 1 := by omega
      simp [h, this]
    · have : (i - 1) % 2 = 0 := by omega
      simp [h, this]

/-- C10 as stated fails: with the device model that raises its finished
indicator during its 100th `eval` call, `main` returns after 100 `eval` calls
and the clock value observed on tick 1 is high, not low (and the one observed
on tick 2 is low), so the observed sequence does not start with low. -/
theorem scenarioA_clock_not_low_first :
    (∃ r, main (finishAfter 100) 0 100 = some r
      ∧ (evalClks r.trace).length = 100
      ∧ (evalClks r.trace)[0]? = some true
      ∧ (evalClks r.trace)[1]? = some false)
    ∧ ¬ (∀ r, main (finishAfter 100) 0 100 = some r →
          ∀ i, 1 ≤ i → i ≤ 100 → (evalClks r.trace)[i - 1]? = some (decide (i % 2 = 0))) := by
  have hrun : main (finishAfter 100) 0 100
      = some (shutdown (finishAfter 100) 0
          ((tick (finishAfter 100))^[100] (initSim (finishAfter 100)))) :=
    runFrom_first (finishAfter 100) 0 100 100 (initSim (finishAfter 100))
      (by decide) (by decide) (le_refl _)
  have hev := run_evalClks (finishAfter 100) 0 100
  refine ⟨⟨_, hrun, ?_, ?_, ?_⟩, ?_⟩
  · rw [hev]; simp
  · rw [hev]; rfl
  · rw [hev]; rfl
  · intro hall
    have h1 := hall _ hrun 1 (by omega) (by omega)
    rw [hev] at h1
    revert h1
    decide

/-! ## Instances -/

/-- Instance of C1: the flag is up at the first check, so the loop returns the
state unchanged even with no fuel. -/
theorem checked_before_execute_witness :
    finishedAfter (finishAfter 2)
        { time := 0, gotFinish := true, clk := false, top := 0, trace := [] } 0 = true
    ∧ loop (finishAfter 2) 0 { time := 0, gotFinish := true, clk := false, top := 0, trace := [] }
        = some { time := 0, gotFinish := true, clk := false, top := 0, trace := [] } :=
  ⟨rfl, (checked_before_execute (finishAfter 2) 1 0 0
    { time := 0, gotFinish := true, clk := false, top := 0, trace := [] }
    (fun k hk => absurd hk (Nat.not_lt_zero k)) rfl (le_refl 0)).1⟩

/-- Instance of C2 with `N = 100`. -/
theorem scenarioA_exact_ticks_witness :
    (∀ k, k < 100 → finishedAfter (finishAfter 100) (initSim (finishAfter 100)) k = false)
    ∧ finishedAfter (finishAfter 100) (initSim (finishAfter 100)) 100 = true
    ∧ ∃ r, main (finishAfter 100) 1 100 = some r ∧ r.time = 100
        ∧ List.countP Event.isEval r.trace = 100 ∧ List.countP Event.isFinal r.trace = 1 := by
  refine ⟨by decide, by decide, ?_⟩
  obtain ⟨_, r, hr, _, _, _, hev, ht, hfin⟩ :=
    scenarioA_exact_ticks (finishAfter 100) 1 100 (by decide) (by decide)
  exact ⟨r, hr 100 (le_refl _), ht, hev, hfin⟩

/-- Instance of C3: the first four clock values written. -/
theorem clock_alternation_witness :
    clkWrites ((tick (finishAfter 100))^[4] (initSim (finishAfter 100))).trace
      = (List.range 4).map (fun i => i % 2 == 0)
    ∧ (List.range 4).map (fun i => i % 2 == 0) = [true, false, true, false] :=
  ⟨(clock_alternation (finishAfter 100) 4).1, rfl⟩

/-- Instance of C4: three ticks from time 0. -/
theorem monotonic_time_witness :
    ((tick (finishAfter 100))^[3] (initSim (finishAfter 100))).time
      = (initSim (finishAfter 100)).time + 3 :=
  (monotonic_time (finishAfter 100) (initSim (finishAfter 100)) 3).2.2.1

/-- Instance of C5: the device model raises its finished indicator on its
very first `eval` call. -/
theorem finalize_once_witness :
    runFrom (finishAfter 1) 0 1 (initSim (finishAfter 1))
      = some { time := 1, gotFinish := true, clk := true, top := 1,
               trace := [Event.timeInc 1, Event.clkWrite true, Event.eval 1 true, Event.final] }
    ∧ List.countP Event.isFinal
        [Event.timeInc 1, Event.clkWrite true, Event.eval 1 true, Event.final] = 0 + 1 := by
  refine ⟨rfl, ?_⟩
  obtain ⟨_, _, _, _, _, _, h⟩ := finalize_once (finishAfter 1) 0 1 (initSim (finishAfter 1))
    { time := 1, gotFinish := true, clk := true, top := 1,
      trace := [Event.timeInc 1, Event.clkWrite true, Event.eval 1 true, Event.final] } rfl
  exact h

/-- Instance of C6: a build without coverage records no coverage write. -/
theorem coverage_conditional_witness :
    main (finishAfter 1) 0 1
      = some { time := 1, gotFinish := true, clk := true, top := 1,
               trace := [Event.timeInc 1, Event.clkWrite true, Event.eval 1 true, Event.final] }
    ∧ List.countP Event.isCoverageWrite
        [Event.timeInc 1, Event.clkWrite true, Event.eval 1 true, Event.final]
        = (if (0 : Int) ≠ 0 then 1 else 0) :=
  ⟨rfl, (coverage_conditional (finishAfter 1) 0 1
    { time := 1, gotFinish := true, clk := true, top := 1,
      trace := [Event.timeInc 1, Event.clkWrite true, Event.eval 1 true, Event.final] } rfl).2.1⟩

/-- Instance of C7: two ticks, then `final`, then the coverage write. -/
theorem shutdown_order_witness :
    (1 : Int) ≠ 0
    ∧ main (finishAfter 2) 1 2
      = some { time := 2, gotFinish := true, clk := false, top := 2,
               trace := [Event.timeInc 1, Event.clkWrite true, Event.eval 1 true,
                         Event.timeInc 1, Event.clkWrite false, Event.eval 2 false,
                         Event.final, Event.coverageWrite "logs/coverage.dat"] }
    ∧ [Event.timeInc 1, Event.clkWrite true, Event.eval 1 true,
       Event.timeInc 1, Event.clkWrite false, Event.eval 2 false,
       Event.final, Event.coverageWrite "logs/coverage.dat"].getLast?
        = some (Event.coverageWrite "logs/coverage.dat") := by
  refine ⟨by decide, rfl, ?_⟩
  obtain ⟨_, _, _, h, _⟩ := shutdown_order (finishAfter 2) 1 2
    { time := 2, gotFinish := true, clk := false, top := 2,
      trace := [Event.timeInc 1, Event.clkWrite true, Event.eval 1 true,
                Event.timeInc 1, Event.clkWrite false, Event.eval 2 false,
                Event.final, Event.coverageWrite "logs/coverage.dat"] } (by decide) rfl
  exact h

/-- Instance of C8: the trace of the first two ticks. -/
theorem per_tick_order_witness :
    ((tick (finishAfter 100))^[2] (initSim (finishAfter 100))).trace
      = (List.range 2).flatMap tickEvents
    ∧ (List.range 2).flatMap tickEvents
      = [Event.timeInc 1, Event.clkWrite true, Event.eval 1 true,
         Event.timeInc 1, Event.clkWrite false, Event.eval 2 false] :=
  ⟨(per_tick_order (finishAfter 100) 2).1, rfl⟩

/-- Instance of C9: the device model `neverFinish`. -/
theorem no_timeout_witness :
    (∀ t c x, (neverFinish.eval t c x).2 = false)
    ∧ (∀ fuel, main neverFinish 1 fuel = none) :=
  ⟨fun _ _ _ => rfl, (no_timeout neverFinish 1 (fun _ _ _ => rfl)).1⟩

/-- Instance of C10 as amended: the device model that finishes on its 100th
`eval` call. -/
theorem scenarioA_clock_high_first_witness :
    (∀ k, k < 100 → finishedAfter (finishAfter 100) (initSim (finishAfter 100)) k = false)
    ∧ finishedAfter (finishAfter 100) (initSim (finishAfter 100)) 100 = true
    ∧ ∃ r, main (finishAfter 100) 0 100 = some r
        ∧ evalClks r.trace = (List.range 100).map (fun i => i % 2 == 0) := by
  refine ⟨by decide, by decide, ?_⟩
  obtain ⟨r, hr, hev, _⟩ :=
    scenarioA_clock_high_first (finishAfter 100) 0 (by decide) (by decide)
  exact ⟨r, hr, hev⟩

end SimSv
